import Mathlib

/-!
Verification of the Abnormal File Vault core: content-addressable
deduplication, reference-counted blob storage, and the metadata search
engine.

The frontend pieces present in the repository are translated directly from
their TypeScript source:
* `buildSearchParams`, `SearchFilters`, `defaultFilters` from
  frontend/src/services/fileService.ts and frontend/src/components/FileSearch.tsx;
* `formatBytes` and its unit table from frontend/src/components/StorageStats.tsx;
* the upload validation ("No file provided") from the backend FileViewSet.create.

The backend dedup index, metadata catalog, query engine and stats
aggregator are not part of the provided sources (only their API clients and
type declarations are), so they are modelled from the specification; each
such definition carries a doc comment starting with "Modelled from the
spec:".  JavaScript floating-point arithmetic in `formatBytes` is idealised
as exact arithmetic on naturals and rationals.
-/

/-- A content fingerprint.  Modelled from the spec: the Hasher (spec 4.1)
computes a deterministic, practically collision-resistant digest of the full
byte content; collision resistance is idealised by taking the fingerprint to
be the byte content itself, which makes `hashContent` injective. -/
abbrev Hash := List Nat

/-- Modelled from the spec: the Hasher contract `hash(byteStream) -> fingerprint`
(spec 4.1), idealised as the identity on byte lists. -/
def hashContent (content : List Nat) : Hash := content

/-- A FileRecord of the Metadata Catalog, one per upload event.  Field names
follow the implemented model used by the frontend (frontend/src/types/file.ts:
`id`, `original_filename`, `file_type`, `size`, `uploaded_at`, `is_duplicate`,
`file_hash` — here `content_hash`, the spec name — and `reference_file_id`). -/
structure FileRecord where
  id : Nat
  original_filename : String
  file_type : String
  size : Nat
  uploaded_at : Nat
  content_hash : Hash
  is_duplicate : Bool
  reference_file_id : Option Nat
deriving DecidableEq

/-- Modelled from the spec: the state of the core system — the Metadata
Catalog (`records`), the Blob Store contents keyed by hash (`blobs`), an id
allocator and a logical clock stamping `uploaded_at`.  The Dedup Index is
derived state (spec 3: "Dedup Index entry — derived, keyed by content_hash")
and is recomputed from `records` by the functions below. -/
structure SysState where
  records : List FileRecord
  blobs : List Hash
  nextId : Nat
  clock : Nat
deriving DecidableEq

/-- The empty initial state. -/
def initState : SysState := { records := [], blobs := [], nextId := 0, clock := 0 }

/-- Modelled from the spec: Dedup Index lookup of the canonical record owning
a fingerprint (spec 4.2 `lookupOrRegister`). -/
def findCanonical (rs : List FileRecord) (h : Hash) : Option FileRecord :=
  rs.find? (fun r => r.content_hash == h && !r.is_duplicate)

/-- Upload.  The empty-content check is translated from the backend
`FileViewSet.create` in the provided source ("No file provided", HTTP 400);
the rest is modelled from the spec: hash the content, consult the Dedup
Index, either register new canonical content (writing the blob) or append a
duplicate record pointing at the existing canonical record (spec 2, 4.2). -/
def upload (s : SysState) (fn ft : String) (content : Option (List Nat)) :
    Except String (SysState × FileRecord) :=
  match content with
  | none => .error "No file provided"
  | some c =>
    let h := hashContent c
    match findCanonical s.records h with
    | none =>
      let r : FileRecord :=
        { id := s.nextId, original_filename := fn, file_type := ft,
          size := c.length, uploaded_at := s.clock, content_hash := h,
          is_duplicate := false, reference_file_id := none }
      .ok ({ records := r :: s.records, blobs := h :: s.blobs,
             nextId := s.nextId + 1, clock := s.clock + 1 }, r)
    | some canon =>
      let r : FileRecord :=
        { id := s.nextId, original_filename := fn, file_type := ft,
          size := c.length, uploaded_at := s.clock, content_hash := h,
          is_duplicate := true, reference_file_id := some canon.id }
      .ok ({ records := r :: s.records, blobs := s.blobs,
             nextId := s.nextId + 1, clock := s.clock + 1 }, r)

/-- The state after an upload request, identical to the previous state when
the request is rejected (spec 7: no partial state on failure). -/
def applyUpload (s : SysState) (fn ft : String) (content : Option (List Nat)) : SysState :=
  match upload s fn ft content with
  | .ok (s', _) => s'
  | .error _ => s

/-- Modelled from the spec: when the canonical record of a hash is deleted
while duplicates remain, canonical ownership is transferred to a remaining
record and the other records are re-pointed at it, so that the invariant
"exactly one canonical record per stored hash" (spec 3) holds after every
delete. -/
def promoteOne (h : Hash) (cid : Nat) (x : FileRecord) : FileRecord :=
  if x.content_hash == h then
    (if x.id == cid then { x with is_duplicate := false, reference_file_id := none }
     else { x with reference_file_id := some cid })
  else x

def promoteCanonical (rest : List FileRecord) (h : Hash) (cid : Nat) : List FileRecord :=
  rest.map (promoteOne h cid)

/-- Modelled from the spec: deletion (spec 3, 4.3).  Removing a FileRecord
releases one reference to its hash; the blob is purged exactly when no other
record still references the hash, otherwise the blob and the other records
stay intact (with canonical ownership transferred if needed). -/
def deleteFile (s : SysState) (i : Nat) : Except String SysState :=
  match s.records.find? (fun r => r.id == i) with
  | none => .error "Not found"
  | some r =>
    let rest := s.records.filter (fun x => x.id != i)
    match rest.filter (fun x => x.content_hash == r.content_hash) with
    | [] =>
      .ok { s with records := rest,
                   blobs := s.blobs.filter (fun h => h != r.content_hash),
                   clock := s.clock + 1 }
    | c :: _ =>
      if r.is_duplicate then
        .ok { s with records := rest, clock := s.clock + 1 }
      else
        .ok { s with records := promoteCanonical rest r.content_hash c.id,
                     clock := s.clock + 1 }

/-- The reachable states of the system: the empty state, and every state
produced by a successful upload or delete. -/
inductive Reachable : SysState → Prop where
| init : Reachable initState
| upload_step (s : SysState) (fn ft : String) (content : Option (List Nat))
    (s' : SysState) (r : FileRecord) :
    Reachable s → upload s fn ft content = .ok (s', r) → Reachable s'
| delete_step (s : SysState) (i : Nat) (s' : SysState) :
    Reachable s → deleteFile s i = .ok s' → Reachable s'

/-! ## Derived Dedup Index and Stats Aggregator -/

/-- Modelled from the spec: the live reference count of a fingerprint — the
number of FileRecords (canonical and duplicates) whose hash matches (spec
glossary, spec 3). -/
def refCount (rs : List FileRecord) (h : Hash) : Nat :=
  (rs.filter (fun r => r.content_hash == h)).length

/-- Modelled from the spec: the stored size of the content behind a hash,
read off any record referencing it (`size_bytes` is derived solely from
content, spec 3). -/
def sizeOfHash (rs : List FileRecord) (h : Hash) : Nat :=
  ((rs.find? (fun r => r.content_hash == h)).map (fun r => r.size)).getD 0

/-- Modelled from the spec: per-hash storage savings,
`size_bytes * (reference_count - 1)` (spec 3, 4.2 `savingsFor`). -/
def savingsFor (rs : List FileRecord) (h : Hash) : Nat :=
  sizeOfHash rs h * (refCount rs h - 1)

/-- The distinct content hashes present in the catalog (the keys of the
derived Dedup Index). -/
def hashesOf (rs : List FileRecord) : List Hash :=
  (rs.map (fun r => r.content_hash)).dedup

/-- Modelled from the spec: `total_bytes_saved`, the sum of per-hash savings
over all Dedup Index entries (spec 4.5). -/
def totalBytesSaved (rs : List FileRecord) : Nat :=
  ((hashesOf rs).map (savingsFor rs)).sum

/-! ## Query Engine (spec 4.4), with the request shapes used by the frontend -/

/-- Modelled from the spec: the explicit filter specification the Query
Engine evaluates (spec 4.4); every criterion is independently optional.
Dates are compared at day granularity against `uploaded_at`. -/
structure FilterSpec where
  textQuery : Option String
  fileType : Option String
  minSize : Option Nat
  maxSize : Option Nat
  startDate : Option Nat
  endDate : Option Nat
  sortBy : String
  sortOrder : String
  page : Nat
  pageSize : Nat
deriving DecidableEq

/-- Case-sensitive containment of `needle` in `hay` as character lists. -/
def substrMatch (needle hay : List Char) : Bool :=
  (List.range (hay.length + 1)).any (fun i => ((hay.drop i).take needle.length) == needle)

/-- Modelled from the spec: `textQuery` is a case-insensitive substring match
against `original_filename` (spec 4.4). -/
def textMatches (spec : FilterSpec) (r : FileRecord) : Bool :=
  match spec.textQuery with
  | none => true
  | some q => substrMatch q.toLower.toList r.original_filename.toLower.toList

/-- Modelled from the spec: `fileType` filters by exact match on the declared
media type; an absent criterion applies no filter (spec 4.4). -/
def typeMatches (spec : FilterSpec) (r : FileRecord) : Bool :=
  match spec.fileType with
  | none => true
  | some t => r.file_type == t

/-- Modelled from the spec: `sizeRange` bounds are inclusive, each optional
(spec 4.4). -/
def sizeMatches (spec : FilterSpec) (r : FileRecord) : Bool :=
  (match spec.minSize with | none => true | some m => decide (m ≤ r.size)) &&
  (match spec.maxSize with | none => true | some m => decide (r.size ≤ m))

/-- Modelled from the spec: `dateRange` bounds are inclusive, each optional,
compared at day granularity (spec 4.4). -/
def dateMatches (spec : FilterSpec) (r : FileRecord) : Bool :=
  (match spec.startDate with | none => true | some d => decide (d ≤ r.uploaded_at / 86400)) &&
  (match spec.endDate with | none => true | some d => decide (r.uploaded_at / 86400 ≤ d))

/-- Modelled from the spec: all supplied criteria combine with logical AND
(spec 4.4). -/
def matchesSpec (spec : FilterSpec) (r : FileRecord) : Bool :=
  textMatches spec r && typeMatches spec r && sizeMatches spec r && dateMatches spec r

/-- Lexicographic "less or equal" on records: first by the chosen key (in the
requested direction), ties broken by ascending `id`. -/
def lexLe {κ : Type} [LinearOrder κ] (key : FileRecord → κ) (desc : Bool)
    (a b : FileRecord) : Bool :=
  (if desc then decide (key b < key a) else decide (key a < key b)) ||
    (decide (key a = key b) && decide (a.id ≤ b.id))

/-- Modelled from the spec: the sort order of the Query Engine — `sortBy`
selects the key (`uploaded_at`, `original_filename`, `size`, `file_type`;
an unknown value falls back to `uploaded_at`), `sortOrder` the direction,
and ties are broken deterministically by `id` (spec 4.4). -/
def leRec (sortBy sortOrder : String) (a b : FileRecord) : Bool :=
  if sortBy = "original_filename" then
    lexLe (fun r => r.original_filename) (sortOrder == "desc") a b
  else if sortBy = "size" then lexLe (fun r => r.size) (sortOrder == "desc") a b
  else if sortBy = "file_type" then lexLe (fun r => r.file_type) (sortOrder == "desc") a b
  else lexLe (fun r => r.uploaded_at) (sortOrder == "desc") a b

/-- Equality of the active sort key of two records. -/
def sortKeyEqB (sortBy : String) (a b : FileRecord) : Bool :=
  if sortBy = "original_filename" then a.original_filename == b.original_filename
  else if sortBy = "size" then a.size == b.size
  else if sortBy = "file_type" then a.file_type == b.file_type
  else a.uploaded_at == b.uploaded_at

/-- The pagination block of a search response
(frontend/src/services/fileService.ts, `SearchResponse.pagination`). -/
structure Pagination where
  total : Nat
  page : Nat
  page_size : Nat
  total_pages : Nat
  has_next : Bool
  has_previous : Bool
deriving DecidableEq

/-- A search response (frontend/src/services/fileService.ts, `SearchResponse`). -/
structure SearchResponse where
  results : List FileRecord
  pagination : Pagination
deriving DecidableEq

/-- Modelled from the spec: the Query Engine — filter, sort, count, then
slice the requested 1-indexed page; `total_pages = ceil(total / pageSize)`,
`has_next = page < total_pages`, `has_previous = page > 1` (spec 4.4).  A
page beyond `total_pages` yields an empty result list with a consistent
pagination block; no input is rejected. -/
def search (spec : FilterSpec) (rs : List FileRecord) : SearchResponse :=
  let matched := (rs.filter (matchesSpec spec)).mergeSort (leRec spec.sortBy spec.sortOrder)
  let total := matched.length
  let totalPages := (total + spec.pageSize - 1) / spec.pageSize
  { results := (matched.drop ((spec.page - 1) * spec.pageSize)).take spec.pageSize,
    pagination :=
      { total := total, page := spec.page, page_size := spec.pageSize,
        total_pages := totalPages,
        has_next := decide (spec.page < totalPages),
        has_previous := decide (1 < spec.page) } }

/-! ## Frontend request construction (from the provided source) -/

/-- `SearchFilters.sizeRange` (frontend/src/components/FileSearch.tsx). -/
structure SizeRange where
  min : Option Nat
  max : Option Nat
deriving DecidableEq

/-- `SearchFilters.dateRange` (frontend/src/components/FileSearch.tsx); the
source field names are `start` and `end`.  Dates are represented as day
numbers. -/
structure DateRange where
  start : Option Nat
  endDate : Option Nat
deriving DecidableEq

/-- `SearchFilters` (frontend/src/components/FileSearch.tsx). -/
structure SearchFilters where
  query : String
  fileType : String
  sizeRange : SizeRange
  dateRange : DateRange
  sortBy : String
  sortOrder : String
deriving DecidableEq

/-- The default filters of the search UI
(frontend/src/components/FileSearch.tsx, `defaultFilters`). -/
def defaultFilters : SearchFilters :=
  { query := "", fileType := "all",
    sizeRange := { min := none, max := none },
    dateRange := { start := none, endDate := none },
    sortBy := "uploaded_at", sortOrder := "desc" }

/-- Query-parameter construction of `fileService.searchFiles`
(frontend/src/services/fileService.ts): `query` is appended when non-empty,
`file_type` only when the filter is not the sentinel "all", size and date
bounds when present, and `sort_by`, `sort_order`, `page`, `page_size`
always. -/
def buildSearchParams (f : SearchFilters) (page pageSize : Nat) : List (String × String) :=
  (if f.query ≠ "" then [("query", f.query)] else []) ++
  (if f.fileType ≠ "all" then [("file_type", f.fileType)] else []) ++
  (match f.sizeRange.min with | some m => [("min_size", toString m)] | none => []) ++
  (match f.sizeRange.max with | some m => [("max_size", toString m)] | none => []) ++
  (match f.dateRange.start with | some d => [("start_date", toString d)] | none => []) ++
  (match f.dateRange.endDate with | some d => [("end_date", toString d)] | none => []) ++
  [("sort_by", f.sortBy), ("sort_order", f.sortOrder),
   ("page", toString page), ("page_size", toString pageSize)]

/-- Modelled from the spec: how the backend reads the query parameters of the
search endpoint into a `FilterSpec` — absent criteria stay inactive, unknown
or absent sort parameters fall back to the defaults (spec 4.4). -/
def specFromParams (ps : List (String × String)) : FilterSpec :=
  { textQuery := ps.lookup "query",
    fileType := ps.lookup "file_type",
    minSize := (ps.lookup "min_size").bind String.toNat?,
    maxSize := (ps.lookup "max_size").bind String.toNat?,
    startDate := (ps.lookup "start_date").bind String.toNat?,
    endDate := (ps.lookup "end_date").bind String.toNat?,
    sortBy := (ps.lookup "sort_by").getD "uploaded_at",
    sortOrder := (ps.lookup "sort_order").getD "desc",
    page := ((ps.lookup "page").bind String.toNat?).getD 1,
    pageSize := ((ps.lookup "page_size").bind String.toNat?).getD 10 }

/-- A search request as issued by the frontend: parameter list in, response
out. -/
def searchViaParams (ps : List (String × String)) (rs : List FileRecord) : SearchResponse :=
  search (specFromParams ps) rs

/-! ## Byte formatting (frontend/src/components/StorageStats.tsx) -/

/-- The unit table of `formatBytes`
(frontend/src/components/StorageStats.tsx, `sizes`). -/
def sizes : List String := ["Bytes", "KB", "MB", "GB", "TB"]

/-- JavaScript array indexing: an out-of-bounds read yields `undefined`,
which string concatenation renders as "undefined". -/
def jsStringOfIndex (l : List String) (i : Nat) : String :=
  (l.get? i).getD "undefined"

/-- The value `parseFloat((bytes / Math.pow(1024, i)).toFixed(2))` of
`formatBytes`, idealised over exact arithmetic: `bytes / 1024^i` rounded to
the nearest hundredth (half up), returned in hundredths. -/
def roundTwoDec (bytes i : Nat) : Nat :=
  (200 * bytes + 1024 ^ i) / (2 * 1024 ^ i)

/-- Decimal rendering of a value given in hundredths, with trailing zeros
stripped as `parseFloat` does ("1.00" renders as "1", "1.50" as "1.5"). -/
def renderTwoDec (hundredths : Nat) : String :=
  let ip := hundredths / 100
  let fr := hundredths % 100
  if fr = 0 then toString ip
  else if fr % 10 = 0 then toString ip ++ "." ++ toString (fr / 10)
  else if fr < 10 then toString ip ++ ".0" ++ toString fr
  else toString ip ++ "." ++ toString fr

/-- `formatBytes` (frontend/src/components/StorageStats.tsx): "0 Bytes" for
zero, otherwise the value scaled by `1024^i` for
`i = floor(log bytes / log 1024)` with two decimals, followed by `sizes[i]`.
JavaScript floating-point `Math.log` and `toFixed` are idealised as the
exact base-1024 integer logarithm and exact half-up rounding. -/
def formatBytes (bytes : Nat) : String :=
  if bytes = 0 then "0 Bytes"
  else renderTwoDec (roundTwoDec bytes (Nat.log 1024 bytes)) ++ " " ++
       jsStringOfIndex sizes (Nat.log 1024 bytes)

/-- `StorageSavingsStats` (frontend/src/services/fileService.ts). -/
structure StorageSavingsStats where
  total_bytes_saved : Nat
  total_duplicate_count : Nat
  total_files : Nat
  efficiency_percentage : Rat
  formatted_bytes_saved : String
deriving DecidableEq

/-- Modelled from the spec: the Stats Aggregator `storageSavings()` contract
(spec 4.5): counts over the catalog, per-hash savings summed over the Dedup
Index, efficiency as a percentage (0 when the denominator is 0), and the
human-readable rendering of the saved bytes. -/
def storageSavings (s : SysState) : StorageSavingsStats :=
  let saved := totalBytesSaved s.records
  let uniqueSizes := ((hashesOf s.records).map (sizeOfHash s.records)).sum
  { total_bytes_saved := saved,
    total_duplicate_count := (s.records.filter (fun r => r.is_duplicate)).length,
    total_files := s.records.length,
    efficiency_percentage :=
      if saved + uniqueSizes = 0 then 0 else (saved : Rat) / ((saved : Rat) + uniqueSizes) * 100,
    formatted_bytes_saved := formatBytes saved }

/-! ## Helper lemmas -/

lemma length_le_one_of_all_eq {α : Type} {l : List α} (hl : l.Nodup) {a : α}
    (h : ∀ x ∈ l, x = a) : l.length ≤ 1 := by
  cases l with
  | nil => simp
  | cons x t =>
    cases t with
    | nil => simp
    | cons y u =>
      exfalso
      have hx : x = a := h x (by simp)
      have hy : y = a := h y (by simp)
      rw [List.nodup_cons] at hl
      exact hl.1 (by simp [hx, hy])

lemma filter_length_eq_one {α : Type} {l : List α} (hl : l.Nodup) {p : α → Bool}
    {a : α} (hmem : a ∈ l) (hpa : p a = true)
    (huniq : ∀ x ∈ l, p x = true → x = a) : (l.filter p).length = 1 := by
  have h1 : (l.filter p).length ≤ 1 :=
    length_le_one_of_all_eq (List.Nodup.sublist (List.filter_sublist l) hl)
      (fun x hx => huniq x (List.mem_filter.mp hx).1 (List.mem_filter.mp hx).2)
  have h2 : a ∈ l.filter p := List.mem_filter.mpr ⟨hmem, hpa⟩
  have h3 : 0 < (l.filter p).length := List.length_pos.mpr (List.ne_nil_of_mem h2)
  omega

lemma sum_map_update {l : List Hash} (hl : l.Nodup) {f g : Hash → Nat} {a : Hash}
    (ha : a ∈ l) (δ : Nat) (hfa : f a = g a + δ)
    (hother : ∀ x ∈ l, x ≠ a → f x = g x) :
    (l.map f).sum = (l.map g).sum + δ := by
  induction l with
  | nil => cases ha
  | cons b t ih =>
    rw [List.nodup_cons] at hl
    rw [List.map_cons, List.map_cons, List.sum_cons, List.sum_cons]
    rcases List.mem_cons.mp ha with hba | hat
    · subst hba
      have ht : List.map f t = List.map g t :=
        List.map_congr_left
          (fun x hx => hother x (List.mem_cons_of_mem _ hx) (fun hxb => hl.1 (hxb ▸ hx)))
      rw [hfa, ht]
      omega
    · have hba : f b = g b := hother b (List.mem_cons_self b t) (fun hb => hl.1 (hb ▸ hat))
      have hrec := ih hl.2 hat
        (fun x hx hxa => hother x (List.mem_cons_of_mem _ hx) hxa)
      rw [hba, hrec]
      omega

/-! ## The system invariant (spec 3) and its preservation -/

/-- The invariant of reachable states: distinct ids below the allocator,
exactly one canonical record per stored hash, duplicates pointing at their
canonical record, blobs stored exactly for the hashes still referenced, and
sizes derived from content. -/
structure SysInv (s : SysState) : Prop where
  ids_nodup : (s.records.map (fun r => r.id)).Nodup
  ids_lt : ∀ r ∈ s.records, r.id < s.nextId
  canon_unique : ∀ h : Hash, (∃ r ∈ s.records, r.content_hash = h) →
    (s.records.filter (fun r => r.content_hash == h && !r.is_duplicate)).length = 1
  dup_ref : ∀ r ∈ s.records, r.is_duplicate = true →
    ∃ c ∈ s.records, c.content_hash = r.content_hash ∧ c.is_duplicate = false ∧
      r.reference_file_id = some c.id
  blob_iff : ∀ h : Hash, h ∈ s.blobs ↔ ∃ r ∈ s.records, r.content_hash = h
  size_eq : ∀ r ∈ s.records, r.size = r.content_hash.length

lemma sysInv_init : SysInv initState := by
  constructor <;> simp [initState]

lemma sysInv_upload_new {s : SysState} (hs : SysInv s) {nr : FileRecord} {cl : Nat}
    (hid : nr.id = s.nextId) (hdup : nr.is_duplicate = false)
    (hsize : nr.size = nr.content_hash.length)
    (hnot : ∀ x ∈ s.records, x.content_hash ≠ nr.content_hash) :
    SysInv { records := nr :: s.records, blobs := nr.content_hash :: s.blobs,
             nextId := s.nextId + 1, clock := cl } := by
  constructor <;> dsimp only
  · simp only [List.map_cons, List.nodup_cons]
    refine ⟨?_, hs.ids_nodup⟩
    intro hmem
    rw [List.mem_map] at hmem
    obtain ⟨x, hx, hxid⟩ := hmem
    have := hs.ids_lt x hx
    omega
  · intro x hx
    rcases List.mem_cons.mp hx with hx | hx
    · subst hx; omega
    · have := hs.ids_lt x hx; omega
  · intro h' hpres
    by_cases hh : h' = nr.content_hash
    · subst hh
      have hnil : s.records.filter
          (fun r => r.content_hash == nr.content_hash && !r.is_duplicate) = [] := by
        rw [List.filter_eq_nil_iff]
        intro a ha
        simp only [Bool.and_eq_true, beq_iff_eq, Bool.not_eq_true', not_and]
        intro hac
        exact absurd hac (hnot a ha)
      rw [List.filter_cons]
      simp [hnil, hdup]
    · have hbe : (nr.content_hash == h') = false := by
        simp only [beq_eq_false_iff_ne, ne_eq]
        exact Ne.symm hh
      have hpred : (nr.content_hash == h' && !nr.is_duplicate) = false := by
        rw [hbe]; exact Bool.false_and _
      rw [List.filter_cons, hpred, if_neg (by simp : ¬(false = true))]
      apply hs.canon_unique h'
      obtain ⟨x, hx, hxh⟩ := hpres
      rcases List.mem_cons.mp hx with hx | hx
      · subst hx; exact absurd hxh.symm hh
      · exact ⟨x, hx, hxh⟩
  · intro x hx hxdup
    rcases List.mem_cons.mp hx with hx | hx
    · subst hx; rw [hdup] at hxdup; cases hxdup
    · obtain ⟨c0, hc0, h1, h2, h3⟩ := hs.dup_ref x hx hxdup
      exact ⟨c0, List.mem_cons_of_mem _ hc0, h1, h2, h3⟩
  · intro h'
    simp only [List.mem_cons]
    constructor
    · intro hmem
      rcases hmem with hmem | hmem
      · exact ⟨nr, Or.inl rfl, hmem.symm⟩
      · obtain ⟨x, hx, hxh⟩ := (hs.blob_iff h').mp hmem
        exact ⟨x, Or.inr hx, hxh⟩
    · rintro ⟨x, hx, hxh⟩
      rcases hx with hx | hx
      · subst hx; exact Or.inl hxh.symm
      · exact Or.inr ((hs.blob_iff h').mpr ⟨x, hx, hxh⟩)
  · intro x hx
    rcases List.mem_cons.mp hx with hx | hx
    · subst hx; exact hsize
    · exact hs.size_eq x hx

lemma sysInv_upload_dup {s : SysState} (hs : SysInv s) {nr canon : FileRecord} {cl : Nat}
    (hid : nr.id = s.nextId) (hdup : nr.is_duplicate = true)
    (hsize : nr.size = nr.content_hash.length)
    (hcmem : canon ∈ s.records) (hchash : canon.content_hash = nr.content_hash)
    (hcdup : canon.is_duplicate = false)
    (href : nr.reference_file_id = some canon.id) :
    SysInv { records := nr :: s.records, blobs := s.blobs,
             nextId := s.nextId + 1, clock := cl } := by
  constructor <;> dsimp only
  · simp only [List.map_cons, List.nodup_cons]
    refine ⟨?_, hs.ids_nodup⟩
    intro hmem
    rw [List.mem_map] at hmem
    obtain ⟨x, hx, hxid⟩ := hmem
    have := hs.ids_lt x hx
    omega
  · intro x hx
    rcases List.mem_cons.mp hx with hx | hx
    · subst hx; omega
    · have := hs.ids_lt x hx; omega
  · intro h' hpres
    have hpred : (nr.content_hash == h' && !nr.is_duplicate) = false := by
      simp [hdup]
    rw [List.filter_cons, hpred, if_neg (by simp : ¬(false = true))]
    apply hs.canon_unique h'
    obtain ⟨x, hx, hxh⟩ := hpres
    rcases List.mem_cons.mp hx with hx | hx
    · subst hx; exact ⟨canon, hcmem, by rw [hchash, hxh]⟩
    · exact ⟨x, hx, hxh⟩
  · intro x hx hxdup
    rcases List.mem_cons.mp hx with hx | hx
    · subst hx
      exact ⟨canon, List.mem_cons_of_mem _ hcmem, hchash, hcdup, href⟩
    · obtain ⟨c0, hc0, h1, h2, h3⟩ := hs.dup_ref x hx hxdup
      exact ⟨c0, List.mem_cons_of_mem _ hc0, h1, h2, h3⟩
  · intro h'
    rw [hs.blob_iff h']
    simp only [List.mem_cons]
    constructor
    · rintro ⟨x, hx, hxh⟩
      exact ⟨x, Or.inr hx, hxh⟩
    · rintro ⟨x, hx, hxh⟩
      rcases hx with hx | hx
      · subst hx; exact ⟨canon, hcmem, by rw [hchash, hxh]⟩
      · exact ⟨x, hx, hxh⟩
  · intro x hx
    rcases List.mem_cons.mp hx with hx | hx
    · subst hx; exact hsize
    · exact hs.size_eq x hx

lemma promoteOne_id (h : Hash) (cid : Nat) (x : FileRecord) :
    (promoteOne h cid x).id = x.id := by
  rw [promoteOne]; split_ifs <;> rfl

lemma promoteOne_hash (h : Hash) (cid : Nat) (x : FileRecord) :
    (promoteOne h cid x).content_hash = x.content_hash := by
  rw [promoteOne]; split_ifs <;> rfl

lemma promoteOne_size (h : Hash) (cid : Nat) (x : FileRecord) :
    (promoteOne h cid x).size = x.size := by
  rw [promoteOne]; split_ifs <;> rfl

lemma promoteOne_eq_promoted {h : Hash} {cid : Nat} {x : FileRecord}
    (hxh : x.content_hash = h) (hxid : x.id = cid) :
    promoteOne h cid x = { x with is_duplicate := false, reference_file_id := none } := by
  simp [promoteOne, hxh, hxid]

lemma promoteOne_eq_repointed {h : Hash} {cid : Nat} {x : FileRecord}
    (hxh : x.content_hash = h) (hxid : x.id ≠ cid) :
    promoteOne h cid x = { x with reference_file_id := some cid } := by
  simp [promoteOne, hxh, hxid]

lemma promoteOne_eq_self {h : Hash} {cid : Nat} {x : FileRecord}
    (hxh : x.content_hash ≠ h) : promoteOne h cid x = x := by
  simp [promoteOne, hxh]

lemma mem_rest_iff {s : SysState} (hs : SysInv s) {r : FileRecord}
    (hrmem : r ∈ s.records) {i : Nat} (hrid : r.id = i) (x : FileRecord) :
    x ∈ s.records.filter (fun y => y.id != i) ↔ x ∈ s.records ∧ x ≠ r := by
  rw [List.mem_filter]
  constructor
  · rintro ⟨hx, hne⟩
    refine ⟨hx, ?_⟩
    intro hxr
    subst hxr
    simp [hrid] at hne
  · rintro ⟨hx, hne⟩
    refine ⟨hx, ?_⟩
    simp only [bne_iff_ne, ne_eq]
    intro hxi
    exact hne (List.inj_on_of_nodup_map hs.ids_nodup hx hrmem (by rw [hxi, hrid]))

lemma filter_rest_eq {s : SysState} (hs : SysInv s) {r : FileRecord}
    (hrmem : r ∈ s.records) {i : Nat} (hrid : r.id = i) {p : FileRecord → Bool}
    (hp : p r = false) :
    (s.records.filter (fun y => y.id != i)).filter p = s.records.filter p := by
  rw [List.filter_filter]
  apply List.filter_congr
  intro a ha
  cases hpa : p a with
  | false => simp
  | true =>
    have har : a ≠ r := by
      intro he
      rw [he, hp] at hpa
      cases hpa
    have hane : (a.id != i) = true := by
      simp only [bne_iff_ne, ne_eq]
      intro hai
      exact har (List.inj_on_of_nodup_map hs.ids_nodup ha hrmem (by rw [hai, hrid]))
    simp [hane]

lemma sysInv_delete_purge {s : SysState} (hs : SysInv s) {r : FileRecord} {i cl : Nat}
    (hrmem : r ∈ s.records) (hrid : r.id = i)
    (hnone : (s.records.filter (fun x => x.id != i)).filter
      (fun x => x.content_hash == r.content_hash) = []) :
    SysInv { records := s.records.filter (fun x => x.id != i),
             blobs := s.blobs.filter (fun h => h != r.content_hash),
             nextId := s.nextId, clock := cl } := by
  have noRemaining : ∀ x ∈ s.records.filter (fun y => y.id != i),
      x.content_hash ≠ r.content_hash := by
    intro x hx
    have := List.filter_eq_nil_iff.mp hnone x hx
    simpa using this
  constructor <;> dsimp only
  · exact List.Nodup.sublist (List.Sublist.map _ (List.filter_sublist _)) hs.ids_nodup
  · intro x hx
    exact hs.ids_lt x (List.mem_of_mem_filter hx)
  · intro h' hpres
    obtain ⟨x, hxrest, hxh⟩ := hpres
    have hxmem : x ∈ s.records := List.mem_of_mem_filter hxrest
    have hne : h' ≠ r.content_hash := by
      intro he
      exact noRemaining x hxrest (by rw [hxh, he])
    have hp : (r.content_hash == h' && !r.is_duplicate) = false := by
      have : (r.content_hash == h') = false := by
        simp only [beq_eq_false_iff_ne, ne_eq]
        exact fun he => hne he.symm
      rw [this, Bool.false_and]
    rw [filter_rest_eq hs hrmem hrid hp]
    exact hs.canon_unique h' ⟨x, hxmem, hxh⟩
  · intro x hxrest hxdup
    have hxmem : x ∈ s.records := List.mem_of_mem_filter hxrest
    obtain ⟨c0, hc0mem, hc0hash, hc0dup, hc0ref⟩ := hs.dup_ref x hxmem hxdup
    have hc0ne : c0 ≠ r := by
      intro he
      exact noRemaining x hxrest (by rw [← hc0hash, he])
    exact ⟨c0, (mem_rest_iff hs hrmem hrid c0).mpr ⟨hc0mem, hc0ne⟩, hc0hash, hc0dup, hc0ref⟩
  · intro h'
    rw [List.mem_filter, hs.blob_iff h']
    constructor
    · rintro ⟨⟨x, hxmem, hxh⟩, hne⟩
      have hne' : h' ≠ r.content_hash := by simpa using hne
      have hxr : x ≠ r := by
        intro he
        exact hne' (by rw [← hxh, he])
      exact ⟨x, (mem_rest_iff hs hrmem hrid x).mpr ⟨hxmem, hxr⟩, hxh⟩
    · rintro ⟨x, hxrest, hxh⟩
      have hxmem : x ∈ s.records := List.mem_of_mem_filter hxrest
      refine ⟨⟨x, hxmem, hxh⟩, ?_⟩
      simp only [bne_iff_ne, ne_eq]
      intro he
      exact noRemaining x hxrest (by rw [hxh, he])
  · intro x hx
    exact hs.size_eq x (List.mem_of_mem_filter hx)

lemma sysInv_delete_dup {s : SysState} (hs : SysInv s) {r : FileRecord} {i cl : Nat}
    (hrmem : r ∈ s.records) (hrid : r.id = i) (hrdup : r.is_duplicate = true) :
    SysInv { records := s.records.filter (fun x => x.id != i),
             blobs := s.blobs, nextId := s.nextId, clock := cl } := by
  constructor <;> dsimp only
  · exact List.Nodup.sublist (List.Sublist.map _ (List.filter_sublist _)) hs.ids_nodup
  · intro x hx
    exact hs.ids_lt x (List.mem_of_mem_filter hx)
  · intro h' hpres
    obtain ⟨x, hxrest, hxh⟩ := hpres
    have hxmem : x ∈ s.records := List.mem_of_mem_filter hxrest
    have hp : (r.content_hash == h' && !r.is_duplicate) = false := by
      rw [hrdup]
      simp
    rw [filter_rest_eq hs hrmem hrid hp]
    exact hs.canon_unique h' ⟨x, hxmem, hxh⟩
  · intro x hxrest hxdup
    have hxmem : x ∈ s.records := List.mem_of_mem_filter hxrest
    obtain ⟨c0, hc0mem, hc0hash, hc0dup, hc0ref⟩ := hs.dup_ref x hxmem hxdup
    have hc0ne : c0 ≠ r := by
      intro he
      rw [he, hrdup] at hc0dup
      cases hc0dup
    exact ⟨c0, (mem_rest_iff hs hrmem hrid c0).mpr ⟨hc0mem, hc0ne⟩, hc0hash, hc0dup, hc0ref⟩
  · intro h'
    rw [hs.blob_iff h']
    constructor
    · rintro ⟨x, hxmem, hxh⟩
      by_cases hxr : x = r
      · subst hxr
        obtain ⟨c0, hc0mem, hc0hash, hc0dup, hc0ref⟩ := hs.dup_ref x hxmem hrdup
        have hc0ne : c0 ≠ x := by
          intro he
          rw [he, hrdup] at hc0dup
          cases hc0dup
        exact ⟨c0, (mem_rest_iff hs hrmem hrid c0).mpr ⟨hc0mem, hc0ne⟩,
          by rw [hc0hash, hxh]⟩
      · exact ⟨x, (mem_rest_iff hs hrmem hrid x).mpr ⟨hxmem, hxr⟩, hxh⟩
    · rintro ⟨x, hxrest, hxh⟩
      exact ⟨x, List.mem_of_mem_filter hxrest, hxh⟩
  · intro x hx
    exact hs.size_eq x (List.mem_of_mem_filter hx)

lemma sysInv_delete_promote {s : SysState} (hs : SysInv s) {r cc : FileRecord} {i cl : Nat}
    (hrmem : r ∈ s.records) (hrid : r.id = i) (hrdup : r.is_duplicate = false)
    (hccrest : cc ∈ s.records.filter (fun x => x.id != i))
    (hcchash : cc.content_hash = r.content_hash) :
    SysInv { records := promoteCanonical (s.records.filter (fun x => x.id != i))
               r.content_hash cc.id,
             blobs := s.blobs, nextId := s.nextId, clock := cl } := by
  have restNodup : (s.records.filter (fun x => x.id != i)).Nodup :=
    List.Nodup.sublist (List.filter_sublist _) (List.Nodup.of_map _ hs.ids_nodup)
  have restIdsNodup :
      ((s.records.filter (fun x => x.id != i)).map (fun r => r.id)).Nodup :=
    List.Nodup.sublist (List.Sublist.map _ (List.filter_sublist _)) hs.ids_nodup
  have allRestDup : ∀ x ∈ s.records.filter (fun y => y.id != i),
      x.content_hash = r.content_hash → x.is_duplicate = true := by
    intro x hxrest hxh
    by_contra hxd
    have hxdup : x.is_duplicate = false := by
      cases hx : x.is_duplicate
      · rfl
      · exact absurd hx hxd
    obtain ⟨hxmem, hxne⟩ := (mem_rest_iff hs hrmem hrid x).mp hxrest
    have hone := hs.canon_unique r.content_hash ⟨r, hrmem, rfl⟩
    rw [List.length_eq_one] at hone
    obtain ⟨y, hy⟩ := hone
    have hrf : r ∈ s.records.filter
        (fun z => z.content_hash == r.content_hash && !z.is_duplicate) :=
      List.mem_filter.mpr ⟨hrmem, by simp [hrdup]⟩
    have hxf : x ∈ s.records.filter
        (fun z => z.content_hash == r.content_hash && !z.is_duplicate) :=
      List.mem_filter.mpr ⟨hxmem, by simp [hxh, hxdup]⟩
    rw [hy] at hrf hxf
    simp only [List.mem_singleton] at hrf hxf
    exact hxne (by rw [hxf, ← hrf])
  have ccdup : cc.is_duplicate = true := allRestDup cc hccrest hcchash
  have gcc : promoteOne r.content_hash cc.id cc =
      { cc with is_duplicate := false, reference_file_id := none } :=
    promoteOne_eq_promoted hcchash rfl
  constructor <;> dsimp only
  · rw [promoteCanonical, List.map_map]
    have heq : List.map ((fun x => x.id) ∘ promoteOne r.content_hash cc.id)
        (s.records.filter (fun x => x.id != i))
        = List.map (fun x => x.id) (s.records.filter (fun x => x.id != i)) :=
      List.map_congr_left (fun a _ => by simp [Function.comp, promoteOne_id])
    rw [heq]
    exact restIdsNodup
  · intro y hy
    rw [promoteCanonical, List.mem_map] at hy
    obtain ⟨x, hxrest, hxy⟩ := hy
    rw [← hxy, promoteOne_id]
    exact hs.ids_lt x (List.mem_of_mem_filter hxrest)
  · intro h' hpres
    rw [promoteCanonical, List.filter_map, List.length_map]
    by_cases hh : h' = r.content_hash
    · subst hh
      have claim : ∀ a ∈ s.records.filter (fun y => y.id != i),
          ((fun z => z.content_hash == r.content_hash && !z.is_duplicate) ∘
            promoteOne r.content_hash cc.id) a
            = (a.content_hash == r.content_hash && a.id == cc.id) := by
        intro a harest
        by_cases hah : a.content_hash = r.content_hash
        · by_cases haid : a.id = cc.id
          · rw [Function.comp_apply, promoteOne_eq_promoted hah haid]
            simp [hah, haid]
          · rw [Function.comp_apply, promoteOne_eq_repointed hah haid]
            simp [hah, haid, allRestDup a harest hah]
        · rw [Function.comp_apply, promoteOne_eq_self hah]
          show (a.content_hash == r.content_hash && !a.is_duplicate)
              = (a.content_hash == r.content_hash && a.id == cc.id)
          have hf : (a.content_hash == r.content_hash) = false :=
            beq_eq_false_iff_ne.mpr hah
          rw [hf, Bool.false_and, Bool.false_and]
      rw [List.filter_congr claim]
      apply filter_length_eq_one restNodup hccrest (by simp [hcchash])
      intro x hxrest hx
      simp only [Bool.and_eq_true, beq_iff_eq] at hx
      exact List.inj_on_of_nodup_map restIdsNodup hxrest hccrest hx.2
    · have claim2 : ∀ a ∈ s.records.filter (fun y => y.id != i),
          ((fun z => z.content_hash == h' && !z.is_duplicate) ∘
            promoteOne r.content_hash cc.id) a
            = (a.content_hash == h' && !a.is_duplicate) := by
        intro a harest
        by_cases hah : a.content_hash = r.content_hash
        · have h1 : (a.content_hash == h') = false := by
            simp only [beq_eq_false_iff_ne, ne_eq]
            rw [hah]
            exact fun he => hh he.symm
          have h2 : ((promoteOne r.content_hash cc.id a).content_hash == h') = false := by
            rw [promoteOne_hash]
            exact h1
          rw [Function.comp_apply, h2, h1, Bool.false_and, Bool.false_and]
        · rw [Function.comp_apply, promoteOne_eq_self hah]
      rw [List.filter_congr claim2]
      have hp : (r.content_hash == h' && !r.is_duplicate) = false := by
        have h1 : (r.content_hash == h') = false := by
          simp only [beq_eq_false_iff_ne, ne_eq]
          exact fun he => hh he.symm
        rw [h1, Bool.false_and]
      rw [filter_rest_eq hs hrmem hrid hp]
      apply hs.canon_unique h'
      obtain ⟨y, hymem, hyh⟩ := hpres
      rw [promoteCanonical, List.mem_map] at hymem
      obtain ⟨x, hxrest, hxy⟩ := hymem
      refine ⟨x, List.mem_of_mem_filter hxrest, ?_⟩
      rw [← promoteOne_hash r.content_hash cc.id x, hxy]
      exact hyh
  · intro y hymem hydup
    rw [promoteCanonical, List.mem_map] at hymem
    obtain ⟨x, hxrest, hxy⟩ := hymem
    by_cases hah : x.content_hash = r.content_hash
    · by_cases haid : x.id = cc.id
      · rw [← hxy, promoteOne_eq_promoted hah haid] at hydup
        simp at hydup
      · have hxy' : y = { x with reference_file_id := some cc.id } := by
          rw [← hxy, promoteOne_eq_repointed hah haid]
        refine ⟨promoteOne r.content_hash cc.id cc, ?_, ?_, ?_, ?_⟩
        · rw [promoteCanonical]
          exact List.mem_map_of_mem _ hccrest
        · rw [gcc, hxy']
          show cc.content_hash = x.content_hash
          rw [hcchash, hah]
        · rw [gcc]
        · rw [hxy', gcc]
    · have hxy' : y = x := by rw [← hxy, promoteOne_eq_self hah]
      have hydupx : x.is_duplicate = true := by
        rw [← hxy']
        exact hydup
      obtain ⟨c0, hc0mem, hc0hash, hc0dup, hc0ref⟩ :=
        hs.dup_ref x (List.mem_of_mem_filter hxrest) hydupx
      have hc0r : c0 ≠ r := by
        intro he
        apply hah
        rw [← hc0hash, he]
      have hc0rest : c0 ∈ s.records.filter (fun y => y.id != i) :=
        (mem_rest_iff hs hrmem hrid c0).mpr ⟨hc0mem, hc0r⟩
      have hc0h : c0.content_hash ≠ r.content_hash := by
        rw [hc0hash]
        exact hah
      have hhash : c0.content_hash = y.content_hash := by
        rw [hxy']
        exact hc0hash
      have href : y.reference_file_id = some c0.id := by
        rw [hxy']
        exact hc0ref
      refine ⟨c0, ?_, hhash, hc0dup, href⟩
      rw [promoteCanonical]
      have hself : promoteOne r.content_hash cc.id c0 = c0 := promoteOne_eq_self hc0h
      rw [← hself]
      exact List.mem_map_of_mem _ hc0rest
  · intro h'
    rw [hs.blob_iff h']
    constructor
    · rintro ⟨x, hxmem, hxh⟩
      by_cases hxr : x = r
      · subst hxr
        refine ⟨promoteOne x.content_hash cc.id cc, ?_, ?_⟩
        · rw [promoteCanonical]
          exact List.mem_map_of_mem _ hccrest
        · rw [promoteOne_hash, hcchash]
          exact hxh
      · refine ⟨promoteOne r.content_hash cc.id x, ?_, ?_⟩
        · rw [promoteCanonical]
          exact List.mem_map_of_mem _ ((mem_rest_iff hs hrmem hrid x).mpr ⟨hxmem, hxr⟩)
        · rw [promoteOne_hash]
          exact hxh
    · rintro ⟨y, hymem, hyh⟩
      rw [promoteCanonical, List.mem_map] at hymem
      obtain ⟨x, hxrest, hxy⟩ := hymem
      refine ⟨x, List.mem_of_mem_filter hxrest, ?_⟩
      rw [← promoteOne_hash r.content_hash cc.id x, hxy]
      exact hyh
  · intro y hy
    rw [promoteCanonical, List.mem_map] at hy
    obtain ⟨x, hxrest, hxy⟩ := hy
    rw [← hxy, promoteOne_size, promoteOne_hash]
    exact hs.size_eq x (List.mem_of_mem_filter hxrest)

lemma sysInv_upload {s : SysState} {fn ft : String} {content : Option (List Nat)}
    {s' : SysState} {rr : FileRecord} (hs : SysInv s)
    (h : upload s fn ft content = .ok (s', rr)) : SysInv s' := by
  cases content with
  | none => simp [upload] at h
  | some c =>
    cases hfc : findCanonical s.records (hashContent c) with
    | none =>
      simp only [upload, hfc, Except.ok.injEq, Prod.mk.injEq] at h
      obtain ⟨h1, h2⟩ := h
      subst h1
      have hnot : ∀ x ∈ s.records, x.content_hash ≠ c := by
        have hfc' : ∀ x ∈ s.records, x.content_hash = c → x.is_duplicate = true := by
          simpa [findCanonical, hashContent] using hfc
        intro x hx hxc
        have hone := hs.canon_unique c ⟨x, hx, hxc⟩
        rw [List.length_eq_one] at hone
        obtain ⟨y, hy⟩ := hone
        have hymem : y ∈ s.records.filter
            (fun r => r.content_hash == c && !r.is_duplicate) := by
          rw [hy]
          exact List.mem_singleton_self y
        rw [List.mem_filter] at hymem
        obtain ⟨hymem1, hypred⟩ := hymem
        simp only [Bool.and_eq_true, beq_iff_eq, Bool.not_eq_true'] at hypred
        rw [hfc' y hymem1 hypred.1] at hypred
        exact absurd hypred.2 (by simp)
      exact sysInv_upload_new hs rfl rfl rfl hnot
    | some canon =>
      simp only [upload, hfc, Except.ok.injEq, Prod.mk.injEq] at h
      obtain ⟨h1, h2⟩ := h
      subst h1
      have hcm : canon ∈ s.records := List.mem_of_find?_eq_some hfc
      have hcpred := List.find?_some hfc
      simp only [Bool.and_eq_true, beq_iff_eq, Bool.not_eq_true'] at hcpred
      exact sysInv_upload_dup hs rfl rfl rfl hcm hcpred.1 hcpred.2 rfl

lemma sysInv_delete {s : SysState} {i : Nat} {s' : SysState} (hs : SysInv s)
    (h : deleteFile s i = .ok s') : SysInv s' := by
  cases hfind : s.records.find? (fun r => r.id == i) with
  | none => simp [deleteFile, hfind] at h
  | some r =>
    have hrmem : r ∈ s.records := List.mem_of_find?_eq_some hfind
    have hrid : r.id = i := by simpa using List.find?_some hfind
    cases hrem : (s.records.filter (fun x => x.id != i)).filter
        (fun x => x.content_hash == r.content_hash) with
    | nil =>
      simp only [deleteFile, hfind, hrem, Except.ok.injEq] at h
      subst h
      exact sysInv_delete_purge hs hrmem hrid hrem
    | cons cc ccs =>
      have hccf : cc ∈ (s.records.filter (fun x => x.id != i)).filter
          (fun x => x.content_hash == r.content_hash) := by
        rw [hrem]
        exact List.mem_cons_self _ _
      have hccrest : cc ∈ s.records.filter (fun x => x.id != i) :=
        List.mem_of_mem_filter hccf
      have hcchash : cc.content_hash = r.content_hash := by
        simpa using (List.mem_filter.mp hccf).2
      cases hrdup : r.is_duplicate with
      | true =>
        simp only [deleteFile, hfind, hrem, hrdup, if_true, Except.ok.injEq] at h
        subst h
        exact sysInv_delete_dup hs hrmem hrid hrdup
      | false =>
        simp only [deleteFile, hfind, hrem, hrdup, Bool.false_eq_true, if_false,
          Except.ok.injEq] at h
        subst h
        exact sysInv_delete_promote hs hrmem hrid hrdup hccrest hcchash

lemma sysInv_of_reachable {s : SysState} (h : Reachable s) : SysInv s := by
  induction h with
  | init => exact sysInv_init
  | upload_step s fn ft content s' r hreach heq ih => exact sysInv_upload ih heq
  | delete_step s i s' hreach heq ih => exact sysInv_delete ih heq

/-! ## Properties of the sort order -/

lemma lexLe_total {κ : Type} [LinearOrder κ] (key : FileRecord → κ) (desc : Bool)
    (a b : FileRecord) : (lexLe key desc a b || lexLe key desc b a) = true := by
  rcases lt_trichotomy (key a) (key b) with hlt | heq | hgt
  · cases desc <;> simp [lexLe, hlt]
  · rcases Nat.le_total a.id b.id with hid | hid <;> cases desc <;>
      simp [lexLe, heq, hid]
  · cases desc <;> simp [lexLe, hgt]

lemma lexLe_trans {κ : Type} [LinearOrder κ] (key : FileRecord → κ) (desc : Bool)
    (a b c : FileRecord) (hab : lexLe key desc a b = true)
    (hbc : lexLe key desc b c = true) : lexLe key desc a c = true := by
  cases desc
  · simp only [lexLe, Bool.false_eq_true, if_false, Bool.or_eq_true, Bool.and_eq_true,
      decide_eq_true_eq] at hab hbc ⊢
    rcases hab with hab | ⟨hab1, hab2⟩ <;> rcases hbc with hbc | ⟨hbc1, hbc2⟩
    · exact Or.inl (lt_trans hab hbc)
    · exact Or.inl (lt_of_lt_of_eq hab hbc1)
    · exact Or.inl (lt_of_eq_of_lt hab1 hbc)
    · exact Or.inr ⟨hab1.trans hbc1, le_trans hab2 hbc2⟩
  · simp only [lexLe, if_true, Bool.or_eq_true, Bool.and_eq_true,
      decide_eq_true_eq] at hab hbc ⊢
    rcases hab with hab | ⟨hab1, hab2⟩ <;> rcases hbc with hbc | ⟨hbc1, hbc2⟩
    · exact Or.inl (lt_trans hbc hab)
    · exact Or.inl (lt_of_eq_of_lt hbc1.symm hab)
    · exact Or.inl (lt_of_lt_of_eq hbc hab1.symm)
    · exact Or.inr ⟨hab1.trans hbc1, le_trans hab2 hbc2⟩

lemma lexLe_tie {κ : Type} [LinearOrder κ] (key : FileRecord → κ) (desc : Bool)
    (a b : FileRecord) (h : lexLe key desc a b = true) (he : key a = key b) :
    a.id ≤ b.id := by
  cases desc <;> simp [lexLe, he] at h <;> exact h

lemma lexLe_desc_key {κ : Type} [LinearOrder κ] (key : FileRecord → κ)
    (a b : FileRecord) (h : lexLe key true a b = true) : key b ≤ key a := by
  simp only [lexLe, if_true, Bool.or_eq_true, Bool.and_eq_true, decide_eq_true_eq] at h
  rcases h with h | ⟨h1, -⟩
  · exact le_of_lt h
  · exact le_of_eq h1.symm

lemma leRec_total (sb so : String) (a b : FileRecord) :
    (leRec sb so a b || leRec sb so b a) = true := by
  rw [leRec, leRec]
  split_ifs <;> exact lexLe_total _ _ _ _

lemma leRec_trans (sb so : String) (a b c : FileRecord)
    (hab : leRec sb so a b = true) (hbc : leRec sb so b c = true) :
    leRec sb so a c = true := by
  rw [leRec] at hab hbc ⊢
  split_ifs at hab hbc ⊢ <;> exact lexLe_trans _ _ _ _ _ hab hbc

lemma leRec_tie (sb so : String) (a b : FileRecord) (h : leRec sb so a b = true)
    (he : sortKeyEqB sb a b = true) : a.id ≤ b.id := by
  rw [leRec] at h
  rw [sortKeyEqB] at he
  split_ifs at h he <;>
    exact lexLe_tie _ _ _ _ h (by simpa using he)

/-! ## Unfolding facts about the Query Engine and the derived stats -/

lemma search_results (spec : FilterSpec) (rs : List FileRecord) :
    (search spec rs).results
      = (((rs.filter (matchesSpec spec)).mergeSort
            (leRec spec.sortBy spec.sortOrder)).drop
          ((spec.page - 1) * spec.pageSize)).take spec.pageSize := rfl

lemma search_total (spec : FilterSpec) (rs : List FileRecord) :
    (search spec rs).pagination.total
      = ((rs.filter (matchesSpec spec)).mergeSort
          (leRec spec.sortBy spec.sortOrder)).length := rfl

lemma le_ceil_mul (T ps : Nat) (hps : 1 ≤ ps) : T ≤ ((T + ps - 1) / ps) * ps := by
  by_contra hlt
  push_neg at hlt
  have h1 : ((T + ps - 1) / ps + 1) * ps ≤ T + ps - 1 := by
    rw [Nat.succ_mul]
    omega
  have h2 := (Nat.le_div_iff_mul_le (by omega : 0 < ps)).mpr h1
  omega

lemma page_beyond {T page ps : Nat} (hps : 1 ≤ ps) (h : (T + ps - 1) / ps < page) :
    T ≤ (page - 1) * ps := by
  have hceil : T ≤ ((T + ps - 1) / ps) * ps := le_ceil_mul T ps hps
  have hmono : ((T + ps - 1) / ps) * ps ≤ (page - 1) * ps :=
    Nat.mul_le_mul_right _ (by omega)
  omega

lemma refCount_cons_eq {rs : List FileRecord} {x : FileRecord} {h : Hash}
    (hx : x.content_hash = h) : refCount (x :: rs) h = refCount rs h + 1 := by
  simp [refCount, List.filter_cons, hx]

lemma refCount_cons_ne {rs : List FileRecord} {x : FileRecord} {h : Hash}
    (hx : x.content_hash ≠ h) : refCount (x :: rs) h = refCount rs h := by
  simp [refCount, List.filter_cons, hx]

lemma sizeOfHash_cons_eq {rs : List FileRecord} {x : FileRecord} {h : Hash}
    (hx : x.content_hash = h) : sizeOfHash (x :: rs) h = x.size := by
  rw [sizeOfHash, List.find?_cons_of_pos _ (by simp [hx])]
  rfl

lemma sizeOfHash_cons_ne {rs : List FileRecord} {x : FileRecord} {h : Hash}
    (hx : x.content_hash ≠ h) : sizeOfHash (x :: rs) h = sizeOfHash rs h := by
  rw [sizeOfHash, List.find?_cons_of_neg _ (by simp [hx]), sizeOfHash]

lemma savingsFor_cons_ne {rs : List FileRecord} {x : FileRecord} {h : Hash}
    (hx : x.content_hash ≠ h) : savingsFor (x :: rs) h = savingsFor rs h := by
  rw [savingsFor, savingsFor, refCount_cons_ne hx, sizeOfHash_cons_ne hx]

lemma totalBytesSaved_cons_new {s : SysState} {nr : FileRecord}
    (hnot : ∀ x ∈ s.records, x.content_hash ≠ nr.content_hash) :
    totalBytesSaved (nr :: s.records) = totalBytesSaved s.records := by
  have hnotmem : nr.content_hash ∉ s.records.map (fun r => r.content_hash) := by
    rw [List.mem_map]
    rintro ⟨x, hx, hxh⟩
    exact hnot x hx hxh
  rw [totalBytesSaved, hashesOf, List.map_cons, List.dedup_cons_of_not_mem hnotmem,
    List.map_cons, List.sum_cons]
  have hrc0 : refCount s.records nr.content_hash = 0 := by
    have hfil : s.records.filter (fun r => r.content_hash == nr.content_hash) = [] := by
      rw [List.filter_eq_nil_iff]
      intro a ha
      simp only [beq_iff_eq]
      exact hnot a ha
    rw [refCount, hfil]
    rfl
  have hz : savingsFor (nr :: s.records) nr.content_hash = 0 := by
    rw [savingsFor, refCount_cons_eq rfl, hrc0]
    simp
  rw [hz, Nat.zero_add, totalBytesSaved, hashesOf]
  apply congrArg
  apply List.map_congr_left
  intro x hx
  have hxmem : x ∈ s.records.map (fun r => r.content_hash) := List.mem_dedup.mp hx
  exact savingsFor_cons_ne (fun he => hnotmem (by rw [he]; exact hxmem))

lemma totalBytesSaved_cons_dup {s : SysState} (hs : SysInv s) {nr : FileRecord}
    (hsize : nr.size = nr.content_hash.length)
    {w : FileRecord} (hw : w ∈ s.records) (hwh : w.content_hash = nr.content_hash) :
    totalBytesSaved (nr :: s.records)
      = totalBytesSaved s.records + nr.content_hash.length := by
  have hmemmap : nr.content_hash ∈ s.records.map (fun r => r.content_hash) :=
    List.mem_map.mpr ⟨w, hw, hwh⟩
  rw [totalBytesSaved, hashesOf, List.map_cons, List.dedup_cons_of_mem hmemmap,
    totalBytesSaved, hashesOf]
  apply sum_map_update (List.nodup_dedup _) (List.mem_dedup.mpr hmemmap)
  · have hrcpos : 0 < refCount s.records nr.content_hash := by
      have hwf : w ∈ s.records.filter (fun r => r.content_hash == nr.content_hash) :=
        List.mem_filter.mpr ⟨hw, by simp [hwh]⟩
      exact List.length_pos.mpr (List.ne_nil_of_mem hwf)
    have hsz : sizeOfHash s.records nr.content_hash = nr.content_hash.length := by
      cases hfind : s.records.find? (fun r => r.content_hash == nr.content_hash) with
      | none =>
        rw [List.find?_eq_none] at hfind
        exact absurd (by simp [hwh]) (hfind w hw)
      | some y =>
        have hymem := List.mem_of_find?_eq_some hfind
        have hyh : y.content_hash = nr.content_hash := by
          simpa using List.find?_some hfind
        rw [sizeOfHash, hfind]
        simp [hs.size_eq y hymem, hyh]
    rw [savingsFor, savingsFor, refCount_cons_eq rfl, sizeOfHash_cons_eq rfl, hsz, hsize]
    obtain ⟨k, hk⟩ : ∃ k, refCount s.records nr.content_hash = k + 1 :=
      ⟨refCount s.records nr.content_hash - 1, by omega⟩
    rw [hk]
    simp only [Nat.add_sub_cancel]
    rw [Nat.mul_succ]
  · intro x hx hne
    have hxmem : x ∈ s.records.map (fun r => r.content_hash) := List.mem_dedup.mp hx
    exact savingsFor_cons_ne (fun he => hne he.symm)

/-! ## Concrete sample states for witnesses -/

def sampleRec1 : FileRecord :=
  { id := 0, original_filename := "report.pdf", file_type := "application/pdf",
    size := 3, uploaded_at := 0, content_hash := [1, 2, 3],
    is_duplicate := false, reference_file_id := none }

def sampleRec2 : FileRecord :=
  { id := 1, original_filename := "report_copy.pdf", file_type := "application/pdf",
    size := 3, uploaded_at := 1, content_hash := [1, 2, 3],
    is_duplicate := true, reference_file_id := some 0 }

def sampleState1 : SysState :=
  { records := [sampleRec1], blobs := [[1, 2, 3]], nextId := 1, clock := 1 }

def sampleState2 : SysState :=
  { records := [sampleRec2, sampleRec1], blobs := [[1, 2, 3]], nextId := 2, clock := 2 }

def sampleState3 : SysState :=
  { records := [sampleRec1], blobs := [[1, 2, 3]], nextId := 2, clock := 3 }

lemma sampleUpload1 :
    upload initState "report.pdf" "application/pdf" (some [1, 2, 3])
      = .ok (sampleState1, sampleRec1) := rfl

lemma sampleUpload2 :
    upload sampleState1 "report_copy.pdf" "application/pdf" (some [1, 2, 3])
      = .ok (sampleState2, sampleRec2) := rfl

lemma sampleDelete2 : deleteFile sampleState2 1 = .ok sampleState3 := rfl

lemma sampleReach1 : Reachable sampleState1 :=
  Reachable.upload_step initState "report.pdf" "application/pdf" (some [1, 2, 3])
    sampleState1 sampleRec1 Reachable.init sampleUpload1

lemma sampleReach2 : Reachable sampleState2 :=
  Reachable.upload_step sampleState1 "report_copy.pdf" "application/pdf" (some [1, 2, 3])
    sampleState2 sampleRec2 sampleReach1 sampleUpload2

/-! ## Claims -/

/-- Claim C1: in every reachable state, every content hash present in the
catalog has exactly one canonical FileRecord (`is_duplicate = false`), and
every other record with that hash is marked duplicate and references the
canonical record by its id; this holds after every upload and every delete,
since reachable states are exactly those produced by uploads and deletes. -/
theorem claimC1 : ∀ s : SysState, Reachable s → ∀ h : Hash,
    (∃ r ∈ s.records, r.content_hash = h) →
    (s.records.filter (fun r => r.content_hash == h && !r.is_duplicate)).length = 1
    ∧ ∀ r ∈ s.records, r.is_duplicate = true → r.content_hash = h →
        ∃ c ∈ s.records, c.content_hash = h ∧ c.is_duplicate = false ∧
          r.reference_file_id = some c.id := by
  intro s hreach h hpres
  have hs := sysInv_of_reachable hreach
  refine ⟨hs.canon_unique h hpres, ?_⟩
  intro r hr hdup hrh
  obtain ⟨c, hcmem, hchash, hcdup, hcref⟩ := hs.dup_ref r hr hdup
  exact ⟨c, hcmem, by rw [hchash, hrh], hcdup, hcref⟩

theorem claimC1_witness :
    (sampleState2.records.filter
        (fun r => r.content_hash == ([1, 2, 3] : Hash) && !r.is_duplicate)).length = 1
    ∧ ∀ r ∈ sampleState2.records, r.is_duplicate = true → r.content_hash = [1, 2, 3] →
        ∃ c ∈ sampleState2.records, c.content_hash = [1, 2, 3] ∧ c.is_duplicate = false ∧
          r.reference_file_id = some c.id :=
  claimC1 sampleState2 sampleReach2 [1, 2, 3] ⟨sampleRec1, by decide, by decide⟩

/-- Claim C2: on every delete in a reachable state, the blob of the deleted
record's hash survives exactly while some FileRecord still references that
hash: it is kept when any reference remains and purged when the last
reference is removed. -/
theorem claimC2 : ∀ (s : SysState) (r : FileRecord) (s' : SysState),
    Reachable s → r ∈ s.records → deleteFile s r.id = .ok s' →
    ((∃ x ∈ s'.records, x.content_hash = r.content_hash) →
      r.content_hash ∈ s'.blobs)
    ∧ ((∀ x ∈ s'.records, x.content_hash ≠ r.content_hash) →
      r.content_hash ∉ s'.blobs) := by
  intro s r s' hreach hmem hdel
  have hs' : SysInv s' := sysInv_delete (sysInv_of_reachable hreach) hdel
  constructor
  · intro hex
    exact (hs'.blob_iff r.content_hash).mpr hex
  · intro hnone hin
    obtain ⟨x, hx, hxh⟩ := (hs'.blob_iff _).mp hin
    exact hnone x hx hxh

theorem claimC2_witness : sampleRec2.content_hash ∈ sampleState3.blobs :=
  (claimC2 sampleState2 sampleRec2 sampleState3 sampleReach2 (by decide) sampleDelete2).1
    ⟨sampleRec1, by decide, by decide⟩

/-- Claim C3: per hash, the reported savings are
`size_bytes * (reference_count - 1)`; a successful upload whose content is
byte-identical to already-stored content raises `total_bytes_saved` by
exactly that content's byte length, while the first upload of fresh content
raises it by zero. -/
theorem claimC3 : ∀ (s : SysState) (fn ft : String) (content : List Nat)
    (s' : SysState) (r : FileRecord), Reachable s →
    upload s fn ft (some content) = .ok (s', r) →
    savingsFor s'.records (hashContent content)
      = sizeOfHash s'.records (hashContent content)
        * (refCount s'.records (hashContent content) - 1)
    ∧ totalBytesSaved s'.records
      = totalBytesSaved s.records
        + (if (s.records.find? (fun x => x.content_hash == hashContent content)).isSome
           then content.length else 0) := by
  intro s fn ft content s' r hreach hup
  have hs := sysInv_of_reachable hreach
  refine ⟨rfl, ?_⟩
  cases hfc : findCanonical s.records (hashContent content) with
  | none =>
    simp only [upload, hfc, Except.ok.injEq, Prod.mk.injEq] at hup
    obtain ⟨h1, h2⟩ := hup
    subst h1
    have hnot : ∀ x ∈ s.records, x.content_hash ≠ content := by
      have hfc' : ∀ x ∈ s.records, x.content_hash = content → x.is_duplicate = true := by
        simpa [findCanonical, hashContent] using hfc
      intro x hx hxc
      have hone := hs.canon_unique content ⟨x, hx, hxc⟩
      rw [List.length_eq_one] at hone
      obtain ⟨y, hy⟩ := hone
      have hymem : y ∈ s.records.filter
          (fun r => r.content_hash == content && !r.is_duplicate) := by
        rw [hy]
        exact List.mem_singleton_self y
      rw [List.mem_filter] at hymem
      obtain ⟨hymem1, hypred⟩ := hymem
      simp only [Bool.and_eq_true, beq_iff_eq, Bool.not_eq_true'] at hypred
      rw [hfc' y hymem1 hypred.1] at hypred
      exact absurd hypred.2 (by simp)
    have hfnone : (s.records.find?
        (fun x => x.content_hash == hashContent content)).isSome = false := by
      rw [Bool.eq_false_iff, Ne, Option.isSome_iff_exists]
      rintro ⟨y, hy⟩
      have hym := List.mem_of_find?_eq_some hy
      have hyh : y.content_hash = content := by simpa using List.find?_some hy
      exact hnot y hym hyh
    rw [hfnone]
    simp only [Bool.false_eq_true, if_false, Nat.add_zero]
    exact totalBytesSaved_cons_new hnot
  | some canon =>
    simp only [upload, hfc, Except.ok.injEq, Prod.mk.injEq] at hup
    obtain ⟨h1, h2⟩ := hup
    subst h1
    have hcm : canon ∈ s.records := List.mem_of_find?_eq_some hfc
    have hcpred := List.find?_some hfc
    simp only [Bool.and_eq_true, beq_iff_eq, Bool.not_eq_true'] at hcpred
    have hfsome : (s.records.find?
        (fun x => x.content_hash == hashContent content)).isSome = true := by
      rw [List.find?_isSome]
      exact ⟨canon, hcm, by simp [hcpred.1, hashContent]⟩
    rw [hfsome]
    simp only [if_true]
    exact totalBytesSaved_cons_dup hs rfl hcm hcpred.1

theorem claimC3_witness :
    savingsFor sampleState2.records (hashContent [1, 2, 3])
      = sizeOfHash sampleState2.records (hashContent [1, 2, 3])
        * (refCount sampleState2.records (hashContent [1, 2, 3]) - 1)
    ∧ totalBytesSaved sampleState2.records
      = totalBytesSaved sampleState1.records
        + (if (sampleState1.records.find?
              (fun x => x.content_hash == hashContent [1, 2, 3])).isSome
           then ([1, 2, 3] : List Nat).length else 0) :=
  claimC3 sampleState1 "report_copy.pdf" "application/pdf" [1, 2, 3]
    sampleState2 sampleRec2 sampleReach1 sampleUpload2

/-- Claim C8: an upload request carrying no file content fails with the
distinguishable error "No file provided" and leaves the whole state — hence
the catalog and the derived Dedup Index — unchanged. -/
theorem claimC8 : ∀ (s : SysState) (fn ft : String),
    upload s fn ft none = Except.error "No file provided"
    ∧ applyUpload s fn ft none = s
    ∧ (applyUpload s fn ft none).records = s.records
    ∧ totalBytesSaved (applyUpload s fn ft none).records = totalBytesSaved s.records := by
  intro s fn ft
  exact ⟨rfl, rfl, rfl, rfl⟩

/-- Claim C4: every search response's pagination block satisfies
`total_pages = ceil(total / pageSize)` (computed as
`(total + pageSize - 1) / pageSize`), `has_next = page < total_pages` and
`has_previous = page > 1`; a page beyond `total_pages` yields empty results
and `has_next = false`, and is answered like any other request rather than
rejected (`search` is a total function). -/
theorem claimC4 : ∀ (spec : FilterSpec) (rs : List FileRecord),
    1 ≤ spec.page → 1 ≤ spec.pageSize →
    ((search spec rs).pagination.total_pages
      = ((search spec rs).pagination.total + (search spec rs).pagination.page_size - 1)
          / (search spec rs).pagination.page_size)
    ∧ ((search spec rs).pagination.has_next = true
        ↔ (search spec rs).pagination.page < (search spec rs).pagination.total_pages)
    ∧ ((search spec rs).pagination.has_previous = true
        ↔ 1 < (search spec rs).pagination.page)
    ∧ ((search spec rs).pagination.total_pages < (search spec rs).pagination.page →
        (search spec rs).results = [] ∧ (search spec rs).pagination.has_next = false) := by
  intro spec rs hp hps
  refine ⟨rfl, by simp [search], by simp [search], ?_⟩
  intro hbeyond
  have h1 : (((rs.filter (matchesSpec spec)).mergeSort
      (leRec spec.sortBy spec.sortOrder)).length + spec.pageSize - 1) / spec.pageSize
      < spec.page := hbeyond
  constructor
  · have hres : (search spec rs).results
        = (((rs.filter (matchesSpec spec)).mergeSort
              (leRec spec.sortBy spec.sortOrder)).drop
            ((spec.page - 1) * spec.pageSize)).take spec.pageSize := rfl
    rw [hres, List.drop_eq_nil_of_le (page_beyond hps h1), List.take_nil]
  · have hnot : ¬ ((search spec rs).pagination.page
        < (search spec rs).pagination.total_pages) := by omega
    exact decide_eq_false hnot

def sampleSpec : FilterSpec :=
  { textQuery := none, fileType := none, minSize := none, maxSize := none,
    startDate := none, endDate := none, sortBy := "uploaded_at",
    sortOrder := "desc", page := 2, pageSize := 10 }

theorem claimC4_witness : (search sampleSpec []).results = []
    ∧ (search sampleSpec []).pagination.has_next = false :=
  (claimC4 sampleSpec [] (by norm_num [sampleSpec]) (by norm_num [sampleSpec])).2.2.2
    (by simp [search, sampleSpec])

/-- Claim C5: a search whose size range has `min > max` succeeds (the Query
Engine rejects no filter specification) and returns the empty result set
with `total = 0`. -/
theorem claimC5 : ∀ (spec : FilterSpec) (rs : List FileRecord) (m M : Nat),
    spec.minSize = some m → spec.maxSize = some M → M < m →
    (search spec rs).results = [] ∧ (search spec rs).pagination.total = 0 := by
  intro spec rs m M hmin hmax hlt
  have hfil : rs.filter (matchesSpec spec) = [] := by
    rw [List.filter_eq_nil_iff]
    intro a ha hmatch
    simp only [matchesSpec, Bool.and_eq_true] at hmatch
    have hsz := hmatch.1.2
    rw [sizeMatches, hmin, hmax] at hsz
    simp only [Bool.and_eq_true, decide_eq_true_eq] at hsz
    omega
  rw [search_results, search_total, hfil]
  simp

def sampleSpecMinMax : FilterSpec :=
  { textQuery := none, fileType := none, minSize := some 1000000,
    maxSize := some 500000, startDate := none, endDate := none,
    sortBy := "uploaded_at", sortOrder := "desc", page := 1, pageSize := 10 }

theorem claimC5_witness :
    (search sampleSpecMinMax [sampleRec1]).results = []
    ∧ (search sampleSpecMinMax [sampleRec1]).pagination.total = 0 :=
  claimC5 sampleSpecMinMax [sampleRec1] 1000000 500000 rfl rfl (by norm_num)

lemma buildParams_all (f : SearchFilters) (p ps : Nat) :
    buildSearchParams { f with fileType := "all" } p ps
      = (buildSearchParams f p ps).filter (fun kv => kv.1 ≠ "file_type") := by
  have h1 : ("query" : String) ≠ "file_type" := by decide
  have h2 : ("min_size" : String) ≠ "file_type" := by decide
  have h3 : ("max_size" : String) ≠ "file_type" := by decide
  have h4 : ("start_date" : String) ≠ "file_type" := by decide
  have h5 : ("end_date" : String) ≠ "file_type" := by decide
  have h6 : ("sort_by" : String) ≠ "file_type" := by decide
  have h7 : ("sort_order" : String) ≠ "file_type" := by decide
  have h8 : ("page" : String) ≠ "file_type" := by decide
  have h9 : ("page_size" : String) ≠ "file_type" := by decide
  rw [buildSearchParams, buildSearchParams]
  by_cases hq : f.query = "" <;>
    by_cases hft : f.fileType = "all" <;>
      rcases hmin : f.sizeRange.min with _ | m <;>
        rcases hmax : f.sizeRange.max with _ | M <;>
          rcases hd1 : f.dateRange.start with _ | d1 <;>
            rcases hd2 : f.dateRange.endDate with _ | d2 <;>
              simp [hq, hft, hmin, hmax, hd1, hd2, List.filter_append,
                h1, h2, h3, h4, h5, h6, h7, h8, h9]

/-- Claim C6: the `fileType` criterion is an exact match on the declared
media type, and the sentinel "all" applies no type filter: the frontend omits
the `file_type` parameter when the filter is "all"
(frontend/src/services/fileService.ts), so the request it sends is exactly
the request with no `file_type` criterion at all, and the two searches return
the same response. -/
theorem claimC6 :
    (∀ (f : SearchFilters) (p ps : Nat) (rs : List FileRecord),
      searchViaParams (buildSearchParams { f with fileType := "all" } p ps) rs
        = searchViaParams ((buildSearchParams f p ps).filter
            (fun kv => kv.1 ≠ "file_type")) rs)
    ∧ (∀ (spec : FilterSpec) (r : FileRecord) (t : String),
        spec.fileType = some t → (typeMatches spec r = true ↔ r.file_type = t))
    ∧ (∀ (spec : FilterSpec) (r : FileRecord),
        spec.fileType = none → typeMatches spec r = true) := by
  refine ⟨?_, ?_, ?_⟩
  · intro f p ps rs
    rw [buildParams_all]
  · intro spec r t ht
    simp [typeMatches, ht]
  · intro spec r hn
    simp [typeMatches, hn]

def sampleSpecType : FilterSpec :=
  { textQuery := none, fileType := some "application/pdf", minSize := none,
    maxSize := none, startDate := none, endDate := none,
    sortBy := "uploaded_at", sortOrder := "desc", page := 1, pageSize := 10 }

theorem claimC6_witness :
    searchViaParams (buildSearchParams { defaultFilters with fileType := "all" } 1 10) []
      = searchViaParams ((buildSearchParams defaultFilters 1 10).filter
          (fun kv => kv.1 ≠ "file_type")) []
    ∧ (typeMatches sampleSpecType sampleRec1 = true
        ↔ sampleRec1.file_type = "application/pdf") :=
  ⟨claimC6.1 defaultFilters 1 10 [],
   claimC6.2.1 sampleSpecType sampleRec1 "application/pdf" rfl⟩

/-- Claim C7: the frontend's default filters sort by `uploaded_at`
descending; the Query Engine breaks every tie in the active sort key
deterministically by ascending `id`, so the ordered result set — and hence
every page — is uniquely determined, and repeating an identical request
returns identical pages (`search` is a pure function of its inputs). -/
theorem claimC7 :
    defaultFilters.sortBy = "uploaded_at"
    ∧ defaultFilters.sortOrder = "desc"
    ∧ (∀ (spec : FilterSpec) (rs : List FileRecord),
        ((search spec rs).results).Pairwise
          (fun a b => sortKeyEqB spec.sortBy a b = true → a.id ≤ b.id))
    ∧ (∀ (spec : FilterSpec) (rs : List FileRecord),
        spec.sortBy = "uploaded_at" → spec.sortOrder = "desc" →
        ((search spec rs).results).Pairwise (fun a b => b.uploaded_at ≤ a.uploaded_at))
    ∧ (∀ (spec : FilterSpec) (rs : List FileRecord), search spec rs = search spec rs) := by
  refine ⟨rfl, rfl, ?_, ?_, fun _ _ => rfl⟩
  · intro spec rs
    have hsorted := @List.sorted_mergeSort FileRecord (leRec spec.sortBy spec.sortOrder)
      (leRec_trans spec.sortBy spec.sortOrder) (leRec_total spec.sortBy spec.sortOrder)
      (rs.filter (matchesSpec spec))
    have hsub : ((search spec rs).results).Sublist
        ((rs.filter (matchesSpec spec)).mergeSort (leRec spec.sortBy spec.sortOrder)) := by
      rw [search_results]
      exact (List.take_sublist _ _).trans (List.drop_sublist _ _)
    exact (List.Pairwise.sublist hsub hsorted).imp
      (fun hab he => leRec_tie spec.sortBy spec.sortOrder _ _ hab he)
  · intro spec rs hsb hso
    have hsorted := @List.sorted_mergeSort FileRecord (leRec spec.sortBy spec.sortOrder)
      (leRec_trans spec.sortBy spec.sortOrder) (leRec_total spec.sortBy spec.sortOrder)
      (rs.filter (matchesSpec spec))
    have hsub : ((search spec rs).results).Sublist
        ((rs.filter (matchesSpec spec)).mergeSort (leRec spec.sortBy spec.sortOrder)) := by
      rw [search_results]
      exact (List.take_sublist _ _).trans (List.drop_sublist _ _)
    refine (List.Pairwise.sublist hsub hsorted).imp ?_
    intro a b hab
    rw [hsb, hso] at hab
    have hred : leRec "uploaded_at" "desc" a b
        = lexLe (fun r => r.uploaded_at) true a b := rfl
    rw [hred] at hab
    exact lexLe_desc_key _ a b hab

theorem claimC7_witness :
    (((search sampleSpec [sampleRec1, sampleRec2]).results).Pairwise
      (fun a b => sortKeyEqB sampleSpec.sortBy a b = true → a.id ≤ b.id))
    ∧ ((search sampleSpec [sampleRec1, sampleRec2]).results).Pairwise
        (fun a b => b.uploaded_at ≤ a.uploaded_at) :=
  ⟨claimC7.2.2.1 sampleSpec [sampleRec1, sampleRec2],
   claimC7.2.2.2.1 sampleSpec [sampleRec1, sampleRec2] rfl rfl⟩

/-- The rendering claimed for `formatBytes`, stated from the claim's words:
zero renders as "0 Bytes", and any positive byte count renders as the value
scaled by `1024 ^ i` to two decimals followed by a unit drawn from the
binary-unit table, where the unit index `i` is chosen so that the scaled
value is at least 1 (and below 1024). -/
def formatBytesClaimSpec (bytes : Nat) : Prop :=
  if bytes = 0 then formatBytes 0 = "0 Bytes"
  else ∃ i u, sizes.get? i = some u ∧ 1024 ^ i ≤ bytes ∧ bytes < 1024 ^ (i + 1) ∧
    formatBytes bytes = renderTwoDec (roundTwoDec bytes i) ++ " " ++ u

/-- Claim C9 as frozen fails at `1024 ^ 5`: there the computed unit index is
5, past the end of the unit table, so no valid unit is rendered. -/
theorem claimC9_counterexample : ¬ formatBytesClaimSpec (1024 ^ 5) := by
  intro hcl
  rw [formatBytesClaimSpec, if_neg (by norm_num)] at hcl
  obtain ⟨i, u, hget, hle, hlt, heq⟩ := hcl
  have hi_le : i ≤ 5 := by
    by_contra hgt
    push_neg at hgt
    have := (@Nat.pow_lt_pow_iff_right 1024 5 i (by norm_num)).mpr hgt
    omega
  have hi_ge : 5 < i + 1 := (@Nat.pow_lt_pow_iff_right 1024 5 (i + 1) (by norm_num)).mp hlt
  have hi5 : i = 5 := by omega
  subst hi5
  simp [sizes] at hget

/-- Claim C9, amended: for every byte count below `1024 ^ 5` (the range on
which the five-entry unit table is defined), `formatBytes` renders zero as
"0 Bytes" and any positive count as the value scaled by `1024 ^ i` rounded
to two decimals followed by the unit of index `i`, chosen so the scaled
value lies in `[1, 1024)`. -/
theorem claimC9 : ∀ bytes : Nat, bytes < 1024 ^ 5 → formatBytesClaimSpec bytes := by
  intro b hb
  rw [formatBytesClaimSpec]
  by_cases hb0 : b = 0
  · rw [if_pos hb0]
    rfl
  · rw [if_neg hb0]
    have hble : 1024 ^ Nat.log 1024 b ≤ b := Nat.pow_log_le_self 1024 hb0
    have hblt : b < 1024 ^ (Nat.log 1024 b + 1) := Nat.lt_pow_succ_log_self (by norm_num) b
    have hlog : Nat.log 1024 b < 5 := by
      by_contra hge
      push_neg at hge
      have := Nat.pow_le_pow_right (by norm_num : 0 < 1024) hge
      omega
    have hlt5 : Nat.log 1024 b < sizes.length := by
      simpa [sizes] using hlog
    refine ⟨Nat.log 1024 b, sizes.get ⟨Nat.log 1024 b, hlt5⟩,
      List.get?_eq_get hlt5, hble, hblt, ?_⟩
    rw [formatBytes, if_neg hb0]
    congr 1
    rw [jsStringOfIndex, List.get?_eq_get hlt5]
    rfl

theorem claimC9_witness : formatBytesClaimSpec 1048576 :=
  claimC9 1048576 (by norm_num)

/-- Claim C10: the unit table of `formatBytes` has exactly five entries
(Bytes, KB, MB, GB, TB), so for every byte count of at least `1024 ^ 5` the
computed unit index is out of bounds, the table read yields no unit, and the
rendered string ends in "undefined" instead of a valid unit name. -/
theorem claimC10 : sizes.length = 5 ∧ ∀ bytes : Nat, 1024 ^ 5 ≤ bytes →
    sizes.length ≤ Nat.log 1024 bytes
    ∧ sizes.get? (Nat.log 1024 bytes) = none
    ∧ formatBytes bytes
        = renderTwoDec (roundTwoDec bytes (Nat.log 1024 bytes)) ++ " undefined" := by
  refine ⟨rfl, ?_⟩
  intro b hb
  have hb0 : b ≠ 0 := by
    have h5 : 0 < (1024 : Nat) ^ 5 := by norm_num
    omega
  have hlog : 5 ≤ Nat.log 1024 b := (Nat.pow_le_iff_le_log (by norm_num) hb0).mp hb
  have hnone : sizes.get? (Nat.log 1024 b) = none :=
    List.get?_eq_none.mpr (by simpa [sizes] using hlog)
  refine ⟨by simpa [sizes] using hlog, hnone, ?_⟩
  rw [formatBytes, if_neg hb0, jsStringOfIndex, hnone, Option.getD_none,
    String.append_assoc]
  rfl

theorem claimC10_witness :
    sizes.length ≤ Nat.log 1024 (1024 ^ 5)
    ∧ sizes.get? (Nat.log 1024 (1024 ^ 5)) = none
    ∧ formatBytes (1024 ^ 5)
        = renderTwoDec (roundTwoDec (1024 ^ 5) (Nat.log 1024 (1024 ^ 5))) ++ " undefined" :=
  claimC10.2 (1024 ^ 5) le_rfl

theorem claimC8_witness :
    upload sampleState1 "empty.txt" "text/plain" none = Except.error "No file provided"
    ∧ applyUpload sampleState1 "empty.txt" "text/plain" none = sampleState1
    ∧ (applyUpload sampleState1 "empty.txt" "text/plain" none).records
        = sampleState1.records
    ∧ totalBytesSaved (applyUpload sampleState1 "empty.txt" "text/plain" none).records
        = totalBytesSaved sampleState1.records :=
  claimC8 sampleState1 "empty.txt" "text/plain"
